import Mathlib

/-!
Verification of the vector-similarity index core of the smart_wardrobe
repository (src/backend/services/embeddings.py, class EmbeddingIndex).

The Python code is shallowly embedded as follows.

* Embeddings (Python lists of floats) become lists of real numbers.
* The FAISS IndexFlatIP object becomes a structure holding its dimension
  and the ordered list of stored vectors.  Its add method models the
  faiss Python wrapper, which asserts that the input dimension equals the
  index dimension before mutating anything; its search method models
  exact inner-product search returning the top-k (score, ordinal) pairs
  in descending score order, ties broken by ascending ordinal.
  faiss.normalize_L2 divides by the L2 norm only when the squared norm is
  positive, leaving zero vectors unchanged, which normalize_L2 reproduces.
* The SQLAlchemy catalog becomes a list of records; the query used by
  _load_metadata and _rebuild_without (filter embedding_json is not NULL,
  optionally id different from the excluded id, order by id ascending)
  becomes dbQuery.
* The Python dict user_map becomes a function from item ids to optional
  owner ids; dict update and delete become pointwise function updates.
* Persistence (faiss.write_index to INDEX_PATH) becomes the disk field of
  the state; _save copies the current index into it.
* Exceptions become an Option Err paired with the state in which the
  object is left when the exception propagates; Python truthiness of an
  optional integer (None and 0 are falsy) becomes truthy.
-/

inductive Err where
  | dimensionMismatch
deriving DecidableEq

/-- EMBEDDING_DIM = 512 from embeddings.py. -/
def EMBEDDING_DIM : ℕ := 512

/-- Inner product of two float vectors (numpy dot over equal-length rows). -/
def dot (v w : List ℝ) : ℝ := (List.zipWith (· * ·) v w).sum

/-- Python truthiness of an optional integer: None and 0 are falsy. -/
def truthy : Option Int → Bool
  | none => false
  | some n => n != 0

/-- faiss.normalize_L2: divide by the L2 norm when the squared norm is
positive, otherwise leave the vector unchanged. -/
noncomputable def normalize_L2 (v : List ℝ) : List ℝ :=
  if 0 < dot v v then v.map (fun x => x / Real.sqrt (dot v v)) else v

/-- One row of the ClothingItem table, restricted to the columns the index
reads: primary key id, the decoded embedding_json column (none models SQL
NULL), and the optional user_id owner column. -/
structure Record where
  id : Int
  embedding_json : Option (List ℝ)
  user_id : Option Int

/-- The faiss IndexFlatIP object: fixed dimension plus the ordered array of
stored vectors. -/
structure FaissIndex where
  d : ℕ
  vecs : List (List ℝ)

/-- faiss.IndexFlatIP(dim): an empty flat inner-product index. -/
def IndexFlatIP (dim : ℕ) : FaissIndex := ⟨dim, []⟩

def FaissIndex.ntotal (ix : FaissIndex) : ℕ := ix.vecs.length

/-- index.add(vec): the faiss Python wrapper asserts the row dimension
equals the index dimension before storing, so a wrong-dimension row raises
and leaves the index unchanged. -/
def FaissIndex.add (ix : FaissIndex) (v : List ℝ) : FaissIndex × Option Err :=
  if v.length = ix.d then ({ ix with vecs := ix.vecs ++ [v] }, none)
  else (ix, some .dimensionMismatch)

/-- Scores of the query against each stored vector, paired with ordinals
counted from i. -/
def scoreListFrom (q : List ℝ) : ℕ → List (List ℝ) → List (ℝ × ℕ)
  | _, [] => []
  | i, v :: vs => (dot q v, i) :: scoreListFrom q (i + 1) vs

/-- Ranking order on (score, ordinal) candidates: higher score first, ties
broken by ascending ordinal. -/
def candLE (a b : ℝ × ℕ) : Prop := b.1 < a.1 ∨ (a.1 = b.1 ∧ a.2 ≤ b.2)

noncomputable instance : DecidableRel candLE :=
  fun _ _ => instDecidableOr

instance : IsTotal (ℝ × ℕ) candLE where
  total a b := by
    rcases lt_trichotomy a.1 b.1 with h | h | h
    · exact Or.inr (Or.inl h)
    · rcases Nat.le_total a.2 b.2 with h2 | h2
      · exact Or.inl (Or.inr ⟨h, h2⟩)
      · exact Or.inr (Or.inr ⟨h.symm, h2⟩)
    · exact Or.inl (Or.inl h)

instance : IsTrans (ℝ × ℕ) candLE where
  trans a b c hab hbc := by
    rcases hab with h1 | ⟨h1, h1n⟩
    · rcases hbc with h2 | ⟨h2, _⟩
      · exact Or.inl (h2.trans h1)
      · exact Or.inl (h2 ▸ h1)
    · rcases hbc with h2 | ⟨h2, h2n⟩
      · exact Or.inl (h1 ▸ h2)
      · exact Or.inr ⟨h1.trans h2, h1n.trans h2n⟩

/-- index.search(q, k): exact inner-product scores against every stored
vector, sorted by descending score (ties by ascending ordinal), truncated
to the k best, returned as (score, ordinal) pairs as the Python loop zips
them. -/
noncomputable def FaissIndex.search (ix : FaissIndex) (q : List ℝ) (k : ℕ) :
    List (ℝ × ℕ) :=
  (List.insertionSort candLE (scoreListFrom q 0 ix.vecs)).take k

/-- The EmbeddingIndex object state: the faiss index, the ordinal to
item_id list, the item_id to user_id dict, plus the persisted snapshot
(none when INDEX_PATH does not exist). -/
structure EmbeddingIndex where
  index : FaissIndex
  item_ids : List Int
  user_map : Int → Option Int
  disk : Option FaissIndex

namespace EmbeddingIndex

/-- _save: persist the current faiss index to disk. -/
def save (s : EmbeddingIndex) : EmbeddingIndex := { s with disk := some s.index }

end EmbeddingIndex

/-- The catalog query shared by _load_metadata (excl = none) and
_rebuild_without (excl = some exclude_id): records whose embedding_json is
not NULL, optionally with id different from the excluded id, ordered by id
ascending. -/
def dbQuery (db : List Record) (excl : Option Int) : List Record :=
  List.insertionSort (fun a b => a.id ≤ b.id)
    (db.filter fun r =>
      r.embedding_json.isSome &&
        (match excl with | some e => r.id != e | none => true))

/-- Count of embedding-bearing catalog records. -/
def catalogCount (db : List Record) : ℕ :=
  (db.filter fun r => r.embedding_json.isSome).length

/-- One iteration of the _rebuild_all loop.  A pending error models an
exception already raised: the remaining iterations never run.  Otherwise:
skip records with falsy embedding_json, normalize_L2, index.add (which can
raise on a wrong-dimension stored embedding, leaving this iteration's
appends unapplied), append the item id, and record truthy ownership. -/
noncomputable def rebuildStep :
    EmbeddingIndex × Option Err → Record → EmbeddingIndex × Option Err
  | (s, some e), _ => (s, some e)
  | (s, none), r =>
    match r.embedding_json with
    | none => (s, none)
    | some emb =>
      match s.index.add (normalize_L2 emb) with
      | (_, some e) => (s, some e)
      | (ix2, none) =>
        ({ s with
            index := ix2,
            item_ids := s.item_ids ++ [r.id],
            user_map :=
              if truthy r.user_id then
                (fun x => if x = r.id then r.user_id else s.user_map x)
              else s.user_map }, none)

namespace EmbeddingIndex

/-- _rebuild_all(items): reset index, item_ids and user_map in place, then
loop over the items; persist only after the loop completes.  If an
iteration raises, the exception propagates and the object is left holding
the partially rebuilt state. -/
noncomputable def rebuild_all (s : EmbeddingIndex) (items : List Record) :
    EmbeddingIndex × Option Err :=
  let s0 : EmbeddingIndex :=
    { s with index := IndexFlatIP EMBEDDING_DIM, item_ids := [],
             user_map := fun _ => none }
  match items.foldl rebuildStep (s0, none) with
  | (s1, none) => (s1.save, none)
  | (s1, some e) => (s1, some e)

/-- _rebuild_without(exclude_id): query the catalog without the excluded
id and rebuild from the result. -/
noncomputable def rebuild_without (s : EmbeddingIndex) (db : List Record)
    (exclude_id : Int) : EmbeddingIndex × Option Err :=
  s.rebuild_all (dbQuery db (some exclude_id))

/-- add_item(item_id, embedding, user_id): normalize_L2, index.add (raises on
a wrong-dimension embedding, before any state mutation), append the item
id, record ownership when user_id is truthy, persist. -/
noncomputable def add_item (s : EmbeddingIndex) (item_id : Int)
    (embedding : List ℝ) (user_id : Option Int) :
    EmbeddingIndex × Option Err :=
  match s.index.add (normalize_L2 embedding) with
  | (_, some e) => (s, some e)
  | (ix2, none) =>
    (EmbeddingIndex.save
      { s with
          index := ix2,
          item_ids := s.item_ids ++ [item_id],
          user_map :=
            if truthy user_id then
              (fun x => if x = item_id then user_id else s.user_map x)
            else s.user_map }, none)

/-- remove_item(item_id): rebuild without the id when it is present in
item_ids (an exception there propagates, skipping the ownership delete),
then delete any ownership entry for the id. -/
noncomputable def remove_item (s : EmbeddingIndex) (db : List Record)
    (item_id : Int) : EmbeddingIndex × Option Err :=
  if item_id ∈ s.item_ids then
    match s.rebuild_without db item_id with
    | (s1, some e) => (s1, some e)
    | (s1, none) =>
      ({ s1 with user_map := fun x => if x = item_id then none else s1.user_map x },
       none)
  else
    ({ s with user_map := fun x => if x = item_id then none else s.user_map x },
     none)

end EmbeddingIndex

/-- The user-isolation test of the search loop: with user_id set, skip an
item exactly when it has a recorded owner different from user_id. -/
def skipByOwner (user_id owner : Option Int) : Bool :=
  match user_id, owner with
  | some u, some o => o != u
  | _, _ => false

/-- The exclusion test of the search loop: Python's
`if exclude_id and item_id == exclude_id`, so a falsy exclude_id (None or
0) never excludes anything. -/
def excludeHit (exclude_id : Option Int) (item_id : Int) : Bool :=
  match exclude_id with
  | some e => (e != 0) && (item_id == e)
  | none => false

/-- The candidate-filtering loop of search_similar: drop out-of-range
ordinals, apply the user-isolation filter, apply the exclusion filter,
append surviving (item_id, score) pairs, and break once k results are
collected. -/
def filterLoop (s : EmbeddingIndex) (k : ℕ) (exclude_id user_id : Option Int) :
    List (ℝ × ℕ) → List (Int × ℝ) → List (Int × ℝ)
  | [], acc => acc
  | (score, idx) :: rest, acc =>
    if idx < s.item_ids.length then
      let item_id := s.item_ids.getD idx 0
      if skipByOwner user_id (s.user_map item_id) then
        filterLoop s k exclude_id user_id rest acc
      else if excludeHit exclude_id item_id then
        filterLoop s k exclude_id user_id rest acc
      else
        let acc2 := acc ++ [(item_id, score)]
        if k ≤ acc2.length then acc2
        else filterLoop s k exclude_id user_id rest acc2
    else filterLoop s k exclude_id user_id rest acc

namespace EmbeddingIndex

/-- search_similar(embedding, k, exclude_id, user_id): empty result on an
empty store; otherwise over-fetch min(k * 10, ntotal) raw candidates and
run the filtering loop. -/
noncomputable def search_similar (s : EmbeddingIndex) (embedding : List ℝ)
    (k : ℕ) (exclude_id user_id : Option Int) : List (Int × ℝ) :=
  if s.index.ntotal = 0 then []
  else
    let search_k := min (k * 10) s.index.ntotal
    filterLoop s k exclude_id user_id
      (s.index.search (normalize_L2 embedding) search_k) []

end EmbeddingIndex

/-- The user-map rebuilding loop of _load_metadata: record each queried
item's owner when it is truthy. -/
def buildUserMap (items : List Record) : Int → Option Int :=
  items.foldl
    (fun m r =>
      if truthy r.user_id then (fun x => if x = r.id then r.user_id else m x)
      else m)
    (fun _ => none)

namespace EmbeddingIndex

/-- _load_metadata: query all embedding-bearing records ordered by id,
install their ids and owners, and rebuild from them when the id count
disagrees with the loaded index's ntotal. -/
noncomputable def load_metadata (s : EmbeddingIndex) (db : List Record) :
    EmbeddingIndex × Option Err :=
  let items := dbQuery db none
  let s1 : EmbeddingIndex :=
    { s with item_ids := items.map (·.id), user_map := buildUserMap items }
  if s1.item_ids.length = s1.index.ntotal then (s1, none) else s1.rebuild_all items

end EmbeddingIndex

/-- _load_or_create: read the snapshot and reconcile metadata when the
snapshot file exists, otherwise create a fresh empty index without
consulting the catalog. -/
noncomputable def load_or_create (disk : Option FaissIndex) (db : List Record) :
    EmbeddingIndex × Option Err :=
  match disk with
  | some ix =>
    EmbeddingIndex.load_metadata
      { index := ix, item_ids := [], user_map := fun _ => none, disk := some ix } db
  | none =>
    ({ index := IndexFlatIP EMBEDDING_DIM, item_ids := [],
       user_map := fun _ => none, disk := none }, none)

/-- The operations the application layer can invoke on the index, each
carrying the catalog contents it runs against. -/
inductive Op where
  | add (item_id : Int) (embedding : List ℝ) (user_id : Option Int)
  | remove (db : List Record) (item_id : Int)
  | search (embedding : List ℝ) (k : ℕ) (exclude_id user_id : Option Int)
  | load (db : List Record)

/-- Apply one operation; the object persists in its resulting state even
when the operation raises. -/
noncomputable def applyOp (s : EmbeddingIndex) : Op → EmbeddingIndex × Option Err
  | .add i e u => s.add_item i e u
  | .remove db i => s.remove_item db i
  | .search _ _ _ _ => (s, none)
  | .load db => load_or_create s.disk db

/-- Run a sequence of operations from a starting state. -/
noncomputable def runOps (s : EmbeddingIndex) : List Op → EmbeddingIndex
  | [] => s
  | op :: ops => runOps (applyOp s op).1 ops

/-- The Ready-state invariant: the id list and the vector store have the
same length. -/
def ReadyInv (s : EmbeddingIndex) : Prop := s.item_ids.length = s.index.ntotal

/-! ### Arithmetic lemmas about dot products and normalization -/

theorem dot_nil_left (w : List ℝ) : dot [] w = 0 := rfl

theorem dot_cons_cons (x y : ℝ) (v w : List ℝ) :
    dot (x :: v) (y :: w) = x * y + dot v w := by
  simp [dot]

theorem dot_comm (v w : List ℝ) : dot v w = dot w v := by
  induction v generalizing w with
  | nil => cases w <;> simp [dot]
  | cons x v ih =>
    cases w with
    | nil => simp [dot]
    | cons y w => simp [dot_cons_cons, ih, mul_comm]

theorem dot_self_nonneg (v : List ℝ) : 0 ≤ dot v v := by
  induction v with
  | nil => simp [dot]
  | cons x v ih =>
    rw [dot_cons_cons]
    have := mul_self_nonneg x
    linarith

theorem dot_sub_self (u w : List ℝ) (h : u.length = w.length) :
    dot (List.zipWith (· - ·) u w) (List.zipWith (· - ·) u w)
      = dot u u + dot w w - 2 * dot u w := by
  induction u generalizing w with
  | nil =>
    cases w with
    | nil => simp [dot]
    | cons y w => simp at h
  | cons x u ih =>
    cases w with
    | nil => simp at h
    | cons y w =>
      simp only [List.length_cons, Nat.add_right_cancel_iff] at h
      simp only [List.zipWith_cons_cons, dot_cons_cons, ih w h]
      ring

theorem eq_of_dot_sub_self_eq_zero (u w : List ℝ) (h : u.length = w.length)
    (h0 : dot (List.zipWith (· - ·) u w) (List.zipWith (· - ·) u w) = 0) :
    u = w := by
  induction u generalizing w with
  | nil =>
    cases w with
    | nil => rfl
    | cons y w => simp at h
  | cons x u ih =>
    cases w with
    | nil => simp at h
    | cons y w =>
      simp only [List.length_cons, Nat.add_right_cancel_iff] at h
      rw [List.zipWith_cons_cons, dot_cons_cons] at h0
      have h1 : 0 ≤ (x - y) * (x - y) := mul_self_nonneg _
      have h2 : 0 ≤ dot (List.zipWith (· - ·) u w) (List.zipWith (· - ·) u w) :=
        dot_self_nonneg _
      have h3 : (x - y) * (x - y) = 0 := by linarith
      have h4 : x = y := by
        have := mul_self_eq_zero.mp h3
        linarith
      have h5 : dot (List.zipWith (· - ·) u w) (List.zipWith (· - ·) u w) = 0 := by
        linarith
      rw [h4, ih w h h5]

theorem dot_lt_one_of_ne (u w : List ℝ) (hlen : w.length = u.length)
    (hu : dot u u = 1) (hw : dot w w ≤ 1) (hne : w ≠ u) : dot u w < 1 := by
  by_contra hcon
  push_neg at hcon
  have hsub := dot_sub_self u w hlen.symm
  have hnn := dot_self_nonneg (List.zipWith (· - ·) u w)
  have hz : dot (List.zipWith (· - ·) u w) (List.zipWith (· - ·) u w) = 0 := by
    rw [hsub, hu]; rw [hsub, hu] at hnn; linarith
  exact hne ((eq_of_dot_sub_self_eq_zero u w hlen.symm hz).symm)

theorem dot_map_div (v w : List ℝ) (c : ℝ) :
    dot (v.map (fun x => x / c)) (w.map (fun x => x / c)) = dot v w / (c * c) := by
  induction v generalizing w with
  | nil => simp [dot]
  | cons x v ih =>
    cases w with
    | nil => simp [dot]
    | cons y w =>
      simp only [List.map_cons, dot_cons_cons, ih w]
      rw [div_mul_div_comm, add_div]

theorem length_normalize_L2 (v : List ℝ) : (normalize_L2 v).length = v.length := by
  unfold normalize_L2
  split <;> simp

theorem dot_normalize_self (v : List ℝ) (h : 0 < dot v v) :
    dot (normalize_L2 v) (normalize_L2 v) = 1 := by
  unfold normalize_L2
  rw [if_pos h, dot_map_div, Real.mul_self_sqrt (le_of_lt h), div_self (ne_of_gt h)]

theorem dot_replicate_zero_left (n : ℕ) (w : List ℝ) :
    dot (List.replicate n 0) w = 0 := by
  induction n generalizing w with
  | zero => simp [dot]
  | succ m ih =>
    cases w with
    | nil => simp [dot]
    | cons y w => simp [List.replicate_succ, dot_cons_cons, ih]

/-! ### Lemmas about candidate scoring and ranking -/

theorem scoreListFrom_append (q : List ℝ) (l1 l2 : List (List ℝ)) (i : ℕ) :
    scoreListFrom q i (l1 ++ l2)
      = scoreListFrom q i l1 ++ scoreListFrom q (i + l1.length) l2 := by
  induction l1 generalizing i with
  | nil => simp [scoreListFrom]
  | cons v vs ih =>
    have hn : i + 1 + vs.length = i + (vs.length + 1) := by omega
    simp only [List.cons_append, scoreListFrom, List.length_cons, ih, hn]
    rw [show vs.append l2 = vs ++ l2 from rfl, ih (i + 1), hn]

theorem scoreListFrom_singleton (q v : List ℝ) (i : ℕ) :
    scoreListFrom q i [v] = [(dot q v, i)] := rfl

theorem mem_scoreListFrom (q : List ℝ) (l : List (List ℝ)) (i : ℕ)
    (p : ℝ × ℕ) (hp : p ∈ scoreListFrom q i l) : ∃ v ∈ l, p.1 = dot q v := by
  induction l generalizing i with
  | nil => simp [scoreListFrom] at hp
  | cons v vs ih =>
    simp only [scoreListFrom, List.mem_cons] at hp
    rcases hp with hp | hp
    · exact ⟨v, List.mem_cons_self v vs, by rw [hp]⟩
    · obtain ⟨w, hw, hwd⟩ := ih (i + 1) hp
      exact ⟨w, List.mem_cons_of_mem v hw, hwd⟩

theorem insertionSort_head_of_strict_max (l : List (ℝ × ℕ)) (x : ℝ × ℕ)
    (hx : x ∈ l) (hmax : ∀ y ∈ l, y = x ∨ y.1 < x.1) :
    ∃ t, List.insertionSort candLE l = x :: t := by
  cases hs : List.insertionSort candLE l with
  | nil =>
    exfalso
    have : x ∈ List.insertionSort candLE l :=
      (List.perm_insertionSort candLE l).mem_iff.mpr hx
    rw [hs] at this
    exact List.not_mem_nil x this
  | cons h t =>
    have hhl : h ∈ l := by
      have : h ∈ List.insertionSort candLE l := by rw [hs]; exact List.mem_cons_self h t
      exact (List.perm_insertionSort candLE l).mem_iff.mp this
    have hxs : x ∈ h :: t := by
      have : x ∈ List.insertionSort candLE l :=
        (List.perm_insertionSort candLE l).mem_iff.mpr hx
      rwa [hs] at this
    rcases List.mem_cons.mp hxs with hxh | hxt
    · exact ⟨t, by rw [hxh]⟩
    · rcases hmax h hhl with hh | hh
      · exact ⟨t, by rw [hh]⟩
      · exfalso
        have hsorted : List.Sorted candLE (h :: t) := by
          rw [← hs]; exact List.sorted_insertionSort candLE l
        have hrel : candLE h x := List.rel_of_sorted_cons hsorted x hxt
        rcases hrel with hlt | ⟨heq, _⟩
        · exact absurd hh (not_lt.mpr (le_of_lt hlt))
        · exact absurd hh (by rw [heq]; exact lt_irrefl _)

/-! ### Lemmas about the search filtering loop -/

theorem filterLoop_mem (s : EmbeddingIndex) (k : ℕ) (ex uid : Option Int) :
    ∀ (cands : List (ℝ × ℕ)) (acc : List (Int × ℝ)) (p : Int × ℝ),
      p ∈ filterLoop s k ex uid cands acc → p ∈ acc ∨ p.1 ∈ s.item_ids := by
  intro cands
  induction cands with
  | nil => intro acc p hp; exact Or.inl hp
  | cons c rest ih =>
    intro acc p hp
    obtain ⟨score, idx⟩ := c
    simp only [filterLoop] at hp
    by_cases hidx : idx < s.item_ids.length
    · rw [if_pos hidx] at hp
      have hmem : s.item_ids.getD idx 0 ∈ s.item_ids := by
        rw [List.getD_eq_getElem s.item_ids 0 hidx]
        exact List.getElem_mem hidx
      by_cases hskip : skipByOwner uid (s.user_map (s.item_ids.getD idx 0)) = true
      · rw [if_pos hskip] at hp
        exact ih acc p hp
      · rw [if_neg hskip] at hp
        by_cases hex : excludeHit ex (s.item_ids.getD idx 0) = true
        · rw [if_pos hex] at hp
          exact ih acc p hp
        · rw [if_neg hex] at hp
          by_cases hk : k ≤ (acc ++ [(s.item_ids.getD idx 0, score)]).length
          · rw [if_pos hk] at hp
            rcases List.mem_append.mp hp with h | h
            · exact Or.inl h
            · simp only [List.mem_singleton] at h
              subst h
              exact Or.inr hmem
          · rw [if_neg hk] at hp
            rcases ih _ p hp with h | h
            · rcases List.mem_append.mp h with h2 | h2
              · exact Or.inl h2
              · simp only [List.mem_singleton] at h2
                subst h2
                exact Or.inr hmem
            · exact Or.inr h
    · rw [if_neg hidx] at hp
      exact ih acc p hp

theorem search_similar_mem (s : EmbeddingIndex) (q : List ℝ) (k : ℕ)
    (ex uid : Option Int) (p : Int × ℝ)
    (hp : p ∈ s.search_similar q k ex uid) : p.1 ∈ s.item_ids := by
  unfold EmbeddingIndex.search_similar at hp
  by_cases h0 : s.index.ntotal = 0
  · rw [if_pos h0] at hp; exact absurd hp (List.not_mem_nil p)
  · rw [if_neg h0] at hp
    rcases filterLoop_mem s k ex uid _ [] p hp with h | h
    · exact absurd h (List.not_mem_nil p)
    · exact h

theorem skipByOwner_none_left (o : Option Int) : skipByOwner none o = false := by
  cases o <;> rfl

theorem skipByOwner_false_owner (u : Int) (o : Option Int)
    (h : skipByOwner (some u) o = false) : o = some u ∨ o = none := by
  cases o with
  | none => exact Or.inr rfl
  | some v =>
    left
    simp only [skipByOwner, bne_eq_false_iff_eq] at h
    rw [h]

theorem excludeHit_none (i : Int) : excludeHit none i = false := rfl

theorem excludeHit_some_zero (i : Int) : excludeHit (some 0) i = false := by
  simp [excludeHit]

theorem excludeHit_false_ne (e i : Int) (he : e ≠ 0)
    (h : excludeHit (some e) i = false) : i ≠ e := by
  simp only [excludeHit, Bool.and_eq_false_iff, bne_eq_false_iff_eq, beq_eq_false_iff_ne] at h
  rcases h with h | h
  · exact absurd h he
  · exact h

theorem filterLoop_owner (s : EmbeddingIndex) (k : ℕ) (ex : Option Int) (u : Int) :
    ∀ (cands : List (ℝ × ℕ)) (acc : List (Int × ℝ)) (p : Int × ℝ),
      p ∈ filterLoop s k ex (some u) cands acc →
        p ∈ acc ∨ s.user_map p.1 = some u ∨ s.user_map p.1 = none := by
  intro cands
  induction cands with
  | nil => intro acc p hp; exact Or.inl hp
  | cons c rest ih =>
    intro acc p hp
    obtain ⟨score, idx⟩ := c
    simp only [filterLoop] at hp
    by_cases hidx : idx < s.item_ids.length
    · rw [if_pos hidx] at hp
      by_cases hskip : skipByOwner (some u) (s.user_map (s.item_ids.getD idx 0)) = true
      · rw [if_pos hskip] at hp
        exact ih acc p hp
      · rw [if_neg hskip] at hp
        have howner := skipByOwner_false_owner u _ (Bool.not_eq_true _ ▸ hskip)
        by_cases hex : excludeHit ex (s.item_ids.getD idx 0) = true
        · rw [if_pos hex] at hp
          exact ih acc p hp
        · rw [if_neg hex] at hp
          by_cases hk : k ≤ (acc ++ [(s.item_ids.getD idx 0, score)]).length
          · rw [if_pos hk] at hp
            rcases List.mem_append.mp hp with h | h
            · exact Or.inl h
            · simp only [List.mem_singleton] at h
              subst h
              exact Or.inr howner
          · rw [if_neg hk] at hp
            rcases ih _ p hp with h | h
            · rcases List.mem_append.mp h with h2 | h2
              · exact Or.inl h2
              · simp only [List.mem_singleton] at h2
                subst h2
                exact Or.inr howner
            · exact Or.inr h
    · rw [if_neg hidx] at hp
      exact ih acc p hp

theorem filterLoop_exclude (s : EmbeddingIndex) (k : ℕ) (uid : Option Int)
    (e : Int) (he : e ≠ 0) :
    ∀ (cands : List (ℝ × ℕ)) (acc : List (Int × ℝ)) (p : Int × ℝ),
      p ∈ filterLoop s k (some e) uid cands acc → p ∈ acc ∨ p.1 ≠ e := by
  intro cands
  induction cands with
  | nil => intro acc p hp; exact Or.inl hp
  | cons c rest ih =>
    intro acc p hp
    obtain ⟨score, idx⟩ := c
    simp only [filterLoop] at hp
    by_cases hidx : idx < s.item_ids.length
    · rw [if_pos hidx] at hp
      by_cases hskip : skipByOwner uid (s.user_map (s.item_ids.getD idx 0)) = true
      · rw [if_pos hskip] at hp
        exact ih acc p hp
      · rw [if_neg hskip] at hp
        by_cases hex : excludeHit (some e) (s.item_ids.getD idx 0) = true
        · rw [if_pos hex] at hp
          exact ih acc p hp
        · rw [if_neg hex] at hp
          have hne := excludeHit_false_ne e _ he (Bool.not_eq_true _ ▸ hex)
          by_cases hk : k ≤ (acc ++ [(s.item_ids.getD idx 0, score)]).length
          · rw [if_pos hk] at hp
            rcases List.mem_append.mp hp with h | h
            · exact Or.inl h
            · simp only [List.mem_singleton] at h
              subst h
              exact Or.inr hne
          · rw [if_neg hk] at hp
            rcases ih _ p hp with h | h
            · rcases List.mem_append.mp h with h2 | h2
              · exact Or.inl h2
              · simp only [List.mem_singleton] at h2
                subst h2
                exact Or.inr hne
            · exact Or.inr h
    · rw [if_neg hidx] at hp
      exact ih acc p hp

theorem filterLoop_user_map_irrel (s : EmbeddingIndex) (m m' : Int → Option Int)
    (k : ℕ) (ex : Option Int) :
    ∀ (cands : List (ℝ × ℕ)) (acc : List (Int × ℝ)),
      filterLoop { s with user_map := m } k ex none cands acc
        = filterLoop { s with user_map := m' } k ex none cands acc := by
  intro cands
  induction cands with
  | nil => intro acc; rfl
  | cons c rest ih =>
    intro acc
    obtain ⟨score, idx⟩ := c
    simp only [filterLoop, skipByOwner_none_left, Bool.false_eq_true, if_false, ih]

theorem filterLoop_exclude_zero (s : EmbeddingIndex) (k : ℕ) (uid : Option Int) :
    ∀ (cands : List (ℝ × ℕ)) (acc : List (Int × ℝ)),
      filterLoop s k (some 0) uid cands acc = filterLoop s k none uid cands acc := by
  intro cands
  induction cands with
  | nil => intro acc; rfl
  | cons c rest ih =>
    intro acc
    obtain ⟨score, idx⟩ := c
    simp only [filterLoop, excludeHit_some_zero, excludeHit_none, Bool.false_eq_true,
      if_false, ih]

/-! ### Lemmas about the rebuild loop -/

theorem rebuildStep_skip (s : EmbeddingIndex) (r : Record)
    (hej : r.embedding_json = none) : rebuildStep (s, none) r = (s, none) := by
  simp [rebuildStep, hej]

theorem rebuildStep_some (s : EmbeddingIndex) (r : Record) (emb : List ℝ)
    (hej : r.embedding_json = some emb) (hlen : emb.length = s.index.d) :
    rebuildStep (s, none) r =
      ({ s with
          index := { s.index with vecs := s.index.vecs ++ [normalize_L2 emb] },
          item_ids := s.item_ids ++ [r.id],
          user_map :=
            if truthy r.user_id then
              (fun x => if x = r.id then r.user_id else s.user_map x)
            else s.user_map }, none) := by
  simp [rebuildStep, hej, FaissIndex.add, length_normalize_L2, hlen]

theorem rebuildStep_bad (s : EmbeddingIndex) (r : Record) (emb : List ℝ)
    (hej : r.embedding_json = some emb) (hlen : ¬ emb.length = s.index.d) :
    rebuildStep (s, none) r = (s, some Err.dimensionMismatch) := by
  simp [rebuildStep, hej, FaissIndex.add, length_normalize_L2, hlen]

theorem foldl_rebuildStep_err (items : List Record) (s : EmbeddingIndex) (e : Err) :
    items.foldl rebuildStep (s, some e) = (s, some e) := by
  induction items with
  | nil => rfl
  | cons r rest ih => rw [List.foldl_cons]; exact ih

theorem rebuildStep_user_map (p : EmbeddingIndex × Option Err) (r : Record)
    (x : Int) (hx : r.id ≠ x) :
    (rebuildStep p r).1.user_map x = p.1.user_map x := by
  obtain ⟨s, er⟩ := p
  cases er with
  | some e => rfl
  | none =>
    cases hej : r.embedding_json with
    | none => rw [rebuildStep_skip s r hej]
    | some emb =>
      by_cases hlen : emb.length = s.index.d
      · rw [rebuildStep_some s r emb hej hlen]
        by_cases ht : truthy r.user_id = true
        · rw [if_pos ht]
          exact if_neg (fun h => hx h.symm)
        · rw [if_neg ht]
      · rw [rebuildStep_bad s r emb hej hlen]

theorem foldl_rebuildStep_user_map (items : List Record)
    (p : EmbeddingIndex × Option Err) (x : Int)
    (hx : ∀ r ∈ items, r.id ≠ x) :
    (items.foldl rebuildStep p).1.user_map x = p.1.user_map x := by
  induction items generalizing p with
  | nil => rfl
  | cons r rest ih =>
    rw [List.foldl_cons]
    rw [ih (rebuildStep p r) (fun r' hr' => hx r' (List.mem_cons_of_mem r hr'))]
    exact rebuildStep_user_map p r x (hx r (List.mem_cons_self r rest))

theorem rebuildStep_inv (p : EmbeddingIndex × Option Err) (r : Record)
    (h : ReadyInv p.1) : ReadyInv (rebuildStep p r).1 := by
  obtain ⟨s, er⟩ := p
  cases er with
  | some e => exact h
  | none =>
    cases hej : r.embedding_json with
    | none => rw [rebuildStep_skip s r hej]; exact h
    | some emb =>
      by_cases hlen : emb.length = s.index.d
      · rw [rebuildStep_some s r emb hej hlen]
        simp only [ReadyInv, FaissIndex.ntotal, List.length_append,
          List.length_singleton] at h ⊢
        omega
      · rw [rebuildStep_bad s r emb hej hlen]; exact h

theorem foldl_rebuildStep_inv (items : List Record)
    (p : EmbeddingIndex × Option Err) (h : ReadyInv p.1) :
    ReadyInv (items.foldl rebuildStep p).1 := by
  induction items generalizing p with
  | nil => exact h
  | cons r rest ih =>
    rw [List.foldl_cons]
    exact ih (rebuildStep p r) (rebuildStep_inv p r h)

theorem foldl_rebuildStep_wf (items : List Record) :
    ∀ (s : EmbeddingIndex), s.index.d = EMBEDDING_DIM →
      (∀ r ∈ items, ∀ e, r.embedding_json = some e → e.length = EMBEDDING_DIM) →
      ∃ s1, items.foldl rebuildStep (s, none) = (s1, none) ∧
        s1.item_ids = s.item_ids
            ++ (items.filter (fun r => r.embedding_json.isSome)).map (·.id) ∧
        s1.index.vecs.length = s.index.vecs.length
            + (items.filter (fun r => r.embedding_json.isSome)).length ∧
        s1.index.d = EMBEDDING_DIM ∧
        s1.disk = s.disk := by
  induction items with
  | nil => intro s hd _; exact ⟨s, rfl, by simp, by simp, hd, rfl⟩
  | cons r rest ih =>
    intro s hd hwf
    cases hej : r.embedding_json with
    | none =>
      rw [List.foldl_cons, rebuildStep_skip s r hej]
      obtain ⟨s1, h1, h2, h3, h4, h5⟩ :=
        ih s hd (fun r' hr' => hwf r' (List.mem_cons_of_mem r hr'))
      refine ⟨s1, h1, ?_, ?_, h4, h5⟩
      · rw [h2, List.filter_cons]
        simp [hej]
      · rw [h3, List.filter_cons]
        simp [hej]
    | some emb =>
      have hlen : emb.length = s.index.d := by
        rw [hd]
        exact hwf r (List.mem_cons_self r rest) emb hej
      rw [List.foldl_cons, rebuildStep_some s r emb hej hlen]
      obtain ⟨s1, h1, h2, h3, h4, h5⟩ :=
        ih { s with
              index := { s.index with vecs := s.index.vecs ++ [normalize_L2 emb] },
              item_ids := s.item_ids ++ [r.id],
              user_map :=
                if truthy r.user_id then
                  (fun x => if x = r.id then r.user_id else s.user_map x)
                else s.user_map }
          hd (fun r' hr' => hwf r' (List.mem_cons_of_mem r hr'))
      refine ⟨s1, h1, ?_, ?_, h4, h5⟩
      · rw [h2, List.filter_cons]
        simp [hej, List.append_assoc]
      · rw [h3, List.filter_cons]
        simp [hej]
        omega

/-! ### Lemmas about rebuild_all, rebuild_without and the catalog query -/

theorem mem_dbQuery (db : List Record) (excl : Option Int) (r : Record) :
    r ∈ dbQuery db excl ↔
      r ∈ db.filter (fun r =>
        r.embedding_json.isSome &&
          (match excl with | some e => r.id != e | none => true)) :=
  (List.perm_insertionSort _ _).mem_iff

theorem length_dbQuery (db : List Record) (excl : Option Int) :
    (dbQuery db excl).length =
      (db.filter (fun r =>
        r.embedding_json.isSome &&
          (match excl with | some e => r.id != e | none => true))).length :=
  (List.perm_insertionSort _ _).length_eq

theorem dbQuery_isSome (db : List Record) (excl : Option Int) (r : Record)
    (hr : r ∈ dbQuery db excl) : r.embedding_json.isSome := by
  rw [mem_dbQuery] at hr
  have := List.of_mem_filter hr
  exact (Bool.and_eq_true _ _ ▸ this).1

theorem dbQuery_sub (db : List Record) (excl : Option Int) (r : Record)
    (hr : r ∈ dbQuery db excl) : r ∈ db := by
  rw [mem_dbQuery] at hr
  exact List.mem_of_mem_filter hr

theorem mem_dbQuery_exclude (db : List Record) (x : Int) (r : Record)
    (hr : r ∈ dbQuery db (some x)) : r.id ≠ x := by
  rw [mem_dbQuery] at hr
  have := List.of_mem_filter hr
  have h2 := (Bool.and_eq_true _ _ ▸ this).2
  simpa using h2

theorem rebuild_all_eq (s : EmbeddingIndex) (items : List Record) :
    s.rebuild_all items =
      match items.foldl rebuildStep
        ({ s with index := IndexFlatIP EMBEDDING_DIM, item_ids := [],
                  user_map := fun _ => none }, none) with
      | (s1, none) => (s1.save, none)
      | (s1, some e) => (s1, some e) := rfl

theorem rebuild_all_wf (s : EmbeddingIndex) (items : List Record)
    (hwf : ∀ r ∈ items, ∀ e, r.embedding_json = some e → e.length = EMBEDDING_DIM) :
    ∃ s1 : EmbeddingIndex, s.rebuild_all items = (s1.save, none) ∧
      s1.item_ids = (items.filter (fun r => r.embedding_json.isSome)).map (·.id) ∧
      s1.index.ntotal = (items.filter (fun r => r.embedding_json.isSome)).length ∧
      s1.index.d = EMBEDDING_DIM := by
  obtain ⟨s1, h1, h2, h3, h4, h5⟩ :=
    foldl_rebuildStep_wf items
      { s with index := IndexFlatIP EMBEDDING_DIM, item_ids := [],
               user_map := fun _ => none }
      rfl hwf
  rw [rebuild_all_eq, h1]
  refine ⟨s1, rfl, by simpa using h2, ?_, h4⟩
  rw [FaissIndex.ntotal, h3]
  simp [IndexFlatIP]

theorem save_item_ids (s : EmbeddingIndex) : s.save.item_ids = s.item_ids := rfl

theorem save_index (s : EmbeddingIndex) : s.save.index = s.index := rfl

theorem save_user_map (s : EmbeddingIndex) : s.save.user_map = s.user_map := rfl

/-! ### Lemmas about add_item and concrete search evaluation -/

theorem add_item_err (s : EmbeddingIndex) (i : Int) (e : List ℝ) (u : Option Int)
    (hlen : ¬ e.length = s.index.d) :
    s.add_item i e u = (s, some Err.dimensionMismatch) := by
  unfold EmbeddingIndex.add_item FaissIndex.add
  rw [length_normalize_L2, if_neg hlen]

theorem add_item_ok (s : EmbeddingIndex) (i : Int) (e : List ℝ) (u : Option Int)
    (hlen : e.length = s.index.d) :
    s.add_item i e u =
      (EmbeddingIndex.save
        { s with
            index := { s.index with vecs := s.index.vecs ++ [normalize_L2 e] },
            item_ids := s.item_ids ++ [i],
            user_map :=
              if truthy u then (fun x => if x = i then u else s.user_map x)
              else s.user_map }, none) := by
  unfold EmbeddingIndex.add_item FaissIndex.add
  rw [length_normalize_L2, if_pos hlen]

theorem insertionSort_single (a : ℝ × ℕ) : List.insertionSort candLE [a] = [a] := rfl

theorem search_similar_single (s : EmbeddingIndex) (i : Int) (v q : List ℝ)
    (k : ℕ) (ex uid : Option Int)
    (hv : s.index.vecs = [v]) (hi : s.item_ids = [i]) (hk : 1 ≤ k)
    (hskip : skipByOwner uid (s.user_map i) = false)
    (hex : excludeHit ex i = false) :
    s.search_similar q k ex uid = [(i, dot (normalize_L2 q) v)] := by
  have hn : s.index.ntotal = 1 := by rw [FaissIndex.ntotal, hv, List.length_singleton]
  have hsearch : s.index.search (normalize_L2 q) 1 = [(dot (normalize_L2 q) v, 0)] := by
    unfold FaissIndex.search
    rw [hv]
    rfl
  simp only [EmbeddingIndex.search_similar, hn]
  norm_num
  have hmin : min (k * 10) 1 = 1 := Nat.min_eq_right (by omega)
  rw [hmin, hsearch]
  simp [filterLoop, hi, hskip, hex]

/-! ### Concrete states used to instantiate the claims -/

/-- The state of a fresh EmbeddingIndex constructed with no snapshot file
and an empty catalog. -/
noncomputable def emptyState : EmbeddingIndex := (load_or_create none []).1

/-- The all-zero 512-dimensional embedding (a valid-dimension input). -/
def z512 : List ℝ := List.replicate EMBEDDING_DIM 0

theorem z512_length : z512.length = EMBEDDING_DIM := List.length_replicate _ _

theorem dot_z512 : dot z512 z512 = 0 := dot_replicate_zero_left _ _

theorem normalize_z512 : normalize_L2 z512 = z512 := by
  unfold normalize_L2
  rw [dot_z512]
  simp

theorem dot_normalize_z512 : dot (normalize_L2 z512) (normalize_L2 z512) = 0 := by
  rw [normalize_z512]
  exact dot_z512

/-- State after add_item(7, zeros, user_id = 1) on a fresh index. -/
noncomputable def stA : EmbeddingIndex := (emptyState.add_item 7 z512 (some 1)).1

theorem stA_def : stA =
    EmbeddingIndex.save
      { index := { d := EMBEDDING_DIM, vecs := [normalize_L2 z512] },
        item_ids := [7],
        user_map := fun x => if x = 7 then some 1 else none,
        disk := none } := by
  unfold stA
  rw [add_item_ok emptyState 7 z512 (some 1) z512_length]
  rfl

theorem stA_vecs : stA.index.vecs = [normalize_L2 z512] := by rw [stA_def]; rfl
theorem stA_ids : stA.item_ids = [7] := by rw [stA_def]; rfl
theorem stA_map7 : stA.user_map 7 = some 1 := by rw [stA_def]; rfl

/-- State after add_item(0, zeros) on a fresh index: an item whose id is
the integer 0. -/
noncomputable def st0 : EmbeddingIndex := (emptyState.add_item 0 z512 none).1

theorem st0_def : st0 =
    EmbeddingIndex.save
      { index := { d := EMBEDDING_DIM, vecs := [normalize_L2 z512] },
        item_ids := [0],
        user_map := fun _ => none,
        disk := none } := by
  unfold st0
  rw [add_item_ok emptyState 0 z512 none z512_length]
  rfl

theorem st0_vecs : st0.index.vecs = [normalize_L2 z512] := by rw [st0_def]; rfl
theorem st0_ids : st0.item_ids = [0] := by rw [st0_def]; rfl

/-! ### Claim C2 -/

/-- C2: add_item with an embedding whose length is not 512 fails with the
dimension-mismatch error and leaves every component of the state (vector
store, id list, ownership map and persisted snapshot) unchanged: the
result state is exactly the input state. -/
theorem c2_dimension_mismatch_fail_fast (s : EmbeddingIndex) (item_id : Int)
    (embedding : List ℝ) (user_id : Option Int)
    (hd : s.index.d = EMBEDDING_DIM)
    (hlen : embedding.length ≠ EMBEDDING_DIM) :
    s.add_item item_id embedding user_id = (s, some Err.dimensionMismatch) :=
  add_item_err s item_id embedding user_id (by rw [hd]; exact hlen)

/-- Witness for C2 at a concrete wrong-length embedding. -/
theorem c2_witness :
    emptyState.index.d = EMBEDDING_DIM ∧
    ([1, 2, 3] : List ℝ).length ≠ EMBEDDING_DIM ∧
    emptyState.add_item 1 [1, 2, 3] none = (emptyState, some Err.dimensionMismatch) :=
  ⟨rfl, by decide,
    c2_dimension_mismatch_fail_fast emptyState 1 [1, 2, 3] none rfl (by decide)⟩

/-! ### Claim C9 -/

/-- C9 counterexample: add_item(1, zeros, user_id = 0) succeeds but records
no ownership, because the code guards the ownership write with Python
truthiness (if user_id:) and 0 is falsy; the claim says get(1) should then
return owner 0. -/
theorem c9_counterexample :
    (emptyState.add_item 1 z512 (some 0)).2 = none ∧
    (emptyState.add_item 1 z512 (some 0)).1.user_map 1 = none := by
  rw [add_item_ok emptyState 1 z512 (some 0) z512_length]
  exact ⟨rfl, rfl⟩

/-- C9 amended: for a nonzero (truthy) owner id, a successful add_item
records the ownership, so the ownership map returns it for that item. -/
theorem c9_truthy_owner_recorded (s : EmbeddingIndex) (item_id : Int)
    (embedding : List ℝ) (u : Int) (hu : u ≠ 0)
    (hd : s.index.d = EMBEDDING_DIM)
    (hlen : embedding.length = EMBEDDING_DIM) :
    (s.add_item item_id embedding (some u)).2 = none ∧
    (s.add_item item_id embedding (some u)).1.user_map item_id = some u := by
  rw [add_item_ok s item_id embedding (some u) (by rw [hd]; exact hlen)]
  refine ⟨rfl, ?_⟩
  have ht : truthy (some u) = true := by simp [truthy, hu]
  show (if truthy (some u) then
          (fun x => if x = item_id then some u else s.user_map x)
        else s.user_map) item_id = some u
  rw [if_pos ht]
  simp

/-- Witness for the amended C9 at a concrete nonzero owner. -/
theorem c9_witness :
    (emptyState.add_item 3 z512 (some 5)).2 = none ∧
    (emptyState.add_item 3 z512 (some 5)).1.user_map 3 = some 5 :=
  c9_truthy_owner_recorded emptyState 3 z512 5 (by decide) rfl z512_length

/-! ### Claim C10 -/

theorem rebuild_without_user_map_excl (s : EmbeddingIndex) (db : List Record)
    (x : Int) : (s.rebuild_without db x).1.user_map x = none := by
  unfold EmbeddingIndex.rebuild_without
  rw [rebuild_all_eq]
  have hfold := foldl_rebuildStep_user_map (dbQuery db (some x))
    ({ s with index := IndexFlatIP EMBEDDING_DIM, item_ids := [],
              user_map := fun _ => none }, none) x
    (fun r hr => mem_dbQuery_exclude db x r hr)
  rcases hf : List.foldl rebuildStep
      ({ s with index := IndexFlatIP EMBEDDING_DIM, item_ids := [],
                user_map := fun _ => none }, none) (dbQuery db (some x))
    with ⟨s1, er⟩
  rw [hf] at hfold
  cases er with
  | none => simpa using hfold
  | some e => simpa using hfold

/-- C10: after remove_item(item_id) the ownership map holds no entry for
item_id, in every case: when the id was present (the rebuilt map only
contains ids from the catalog query that excludes item_id, and the trailing
delete removes any rest), when it was absent but a stale ownership entry
existed (the delete still runs), and even when the rebuild raises partway
(the partially rebuilt map never contains the excluded id). -/
theorem c10_remove_clears_ownership (s : EmbeddingIndex) (db : List Record)
    (item_id : Int) :
    (s.remove_item db item_id).1.user_map item_id = none := by
  unfold EmbeddingIndex.remove_item
  by_cases hmem : item_id ∈ s.item_ids
  · rw [if_pos hmem]
    have h1 := rebuild_without_user_map_excl s db item_id
    rcases hrw : s.rebuild_without db item_id with ⟨s1, er⟩
    rw [hrw] at h1
    cases er with
    | none => simp
    | some e => simpa using h1
  · rw [if_neg hmem]
    simp

/-! ### Claim C3 -/

/-- C3 counterexample: a store holding an item whose id is 0, searched with
exclude_id = 0, still returns that item, because the loop guard
(if exclude_id and ...) treats the falsy id 0 as no exclusion; the claim
says the returned list never contains exclude_id, including id 0. -/
theorem c3_counterexample :
    (st0.search_similar z512 10 (some 0) none).map Prod.fst = [0] := by
  rw [search_similar_single st0 0 (normalize_L2 z512) z512 10 (some 0) none
    st0_vecs st0_ids (by omega) (skipByOwner_none_left _) (excludeHit_some_zero 0)]
  rfl

/-- C3 amended: for every search with a nonzero exclude_id, the returned
list never contains exclude_id; exclude_id = 0 is falsy and behaves
exactly like passing no exclusion. -/
theorem c3_exclude_filter (s : EmbeddingIndex) (q : List ℝ) (k : ℕ)
    (uid : Option Int) (e : Int) (he : e ≠ 0) :
    (∀ p ∈ s.search_similar q k (some e) uid, p.1 ≠ e) ∧
    s.search_similar q k (some 0) uid = s.search_similar q k none uid := by
  constructor
  · intro p hp
    unfold EmbeddingIndex.search_similar at hp
    by_cases h0 : s.index.ntotal = 0
    · rw [if_pos h0] at hp
      exact absurd hp (List.not_mem_nil p)
    · rw [if_neg h0] at hp
      rcases filterLoop_exclude s k uid e he _ [] p hp with h | h
      · exact absurd h (List.not_mem_nil p)
      · exact h
  · unfold EmbeddingIndex.search_similar
    by_cases h0 : s.index.ntotal = 0 <;>
      simp [h0, filterLoop_exclude_zero]

/-- Witness for the amended C3 at a concrete nonzero exclude_id. -/
theorem c3_witness :
    (∀ p ∈ stA.search_similar z512 1 (some 5) none, p.1 ≠ 5) ∧
    stA.search_similar z512 1 (some 0) none = stA.search_similar z512 1 none none :=
  c3_exclude_filter stA z512 1 none 5 (by decide)

/-! ### Claim C4 -/

/-- C4: with user_id set, every returned item either has its recorded
owner equal to user_id or has no recorded owner (legacy-public policy),
so items recorded under a different owner are never returned; and with
user_id unset the ownership map is never consulted: the result is the
same whatever the ownership map holds. -/
theorem c4_owner_isolation (s : EmbeddingIndex) (q : List ℝ) (k : ℕ)
    (ex : Option Int) (u : Int) (m m' : Int → Option Int) :
    (∀ p ∈ s.search_similar q k ex (some u),
        s.user_map p.1 = some u ∨ s.user_map p.1 = none) ∧
    ({ s with user_map := m }.search_similar q k ex none
      = { s with user_map := m' }.search_similar q k ex none) := by
  constructor
  · intro p hp
    unfold EmbeddingIndex.search_similar at hp
    by_cases h0 : s.index.ntotal = 0
    · rw [if_pos h0] at hp
      exact absurd hp (List.not_mem_nil p)
    · rw [if_neg h0] at hp
      rcases filterLoop_owner s k ex u _ [] p hp with h | h
      · exact absurd h (List.not_mem_nil p)
      · exact h
  · unfold EmbeddingIndex.search_similar
    by_cases h0 : s.index.ntotal = 0 <;>
      simp [h0, FaissIndex.ntotal, filterLoop_user_map_irrel s m m']

/-- Witness for C4: a concrete search with an owner filter returns the
owner's item, and the theorem yields its ownership disjunction. -/
theorem c4_witness : stA.user_map 7 = some 1 ∨ stA.user_map 7 = none := by
  have hskip : skipByOwner (some 1) (stA.user_map 7) = false := by
    rw [stA_map7]
    rfl
  have hmem : ((7 : Int), (0 : ℝ)) ∈ stA.search_similar z512 1 none (some 1) := by
    rw [search_similar_single stA 7 (normalize_L2 z512) z512 1 none (some 1)
      stA_vecs stA_ids (le_refl 1) hskip (excludeHit_none 7)]
    rw [dot_normalize_z512]
    exact List.mem_singleton.mpr rfl
  exact (c4_owner_isolation stA z512 1 none 1 (fun _ => none) (fun _ => none)).1
    (7, 0) hmem

/-! ### Claim C5, counterexample -/

/-- C5 counterexample: the all-zero vector is a valid-dimension embedding;
faiss.normalize_L2 leaves it unchanged, so after a successful add its
self-similarity score is 0, not approximately 1.  The search does return
the added id first, but with score 0, refuting the score part of the
claim. -/
theorem c5_counterexample :
    (emptyState.add_item 7 z512 (some 1)).2 = none ∧
    stA.search_similar z512 1 none none = [(7, 0)] := by
  constructor
  · rw [add_item_ok emptyState 7 z512 (some 1) z512_length]
  · rw [search_similar_single stA 7 (normalize_L2 z512) z512 1 none none
      stA_vecs stA_ids (le_refl 1) (skipByOwner_none_left _) (excludeHit_none 7)]
    rw [dot_normalize_z512]

/-! ### Claim C5, amended -/

theorem search_top_hit (s2 : EmbeddingIndex) (e : List ℝ) (i : Int)
    (vecs0 : List (List ℝ))
    (hv : s2.index.vecs = vecs0 ++ [normalize_L2 e])
    (hi : s2.item_ids.getD vecs0.length 0 = i)
    (hilen : s2.item_ids.length = vecs0.length + 1)
    (hpos : 0 < dot e e)
    (hlow : ∀ w ∈ vecs0, dot (normalize_L2 e) w < 1) :
    s2.search_similar e 1 none none = [(i, 1)] := by
  have hq1 : dot (normalize_L2 e) (normalize_L2 e) = 1 := dot_normalize_self e hpos
  have hnt : s2.index.ntotal = vecs0.length + 1 := by
    rw [FaissIndex.ntotal, hv]
    simp
  have hcands : scoreListFrom (normalize_L2 e) 0 s2.index.vecs
      = scoreListFrom (normalize_L2 e) 0 vecs0 ++ [((1 : ℝ), vecs0.length)] := by
    rw [hv, scoreListFrom_append]
    simp [scoreListFrom, hq1]
  have hx : ((1 : ℝ), vecs0.length)
      ∈ scoreListFrom (normalize_L2 e) 0 s2.index.vecs := by
    rw [hcands]
    exact List.mem_append_right _ (List.mem_singleton.mpr rfl)
  have hmax : ∀ y ∈ scoreListFrom (normalize_L2 e) 0 s2.index.vecs,
      y = ((1 : ℝ), vecs0.length) ∨ y.1 < ((1 : ℝ), vecs0.length).1 := by
    intro y hy
    rw [hcands] at hy
    rcases List.mem_append.mp hy with hy | hy
    · obtain ⟨w, hw, hyd⟩ := mem_scoreListFrom (normalize_L2 e) vecs0 0 y hy
      right
      rw [hyd]
      exact hlow w hw
    · left
      simpa using hy
  obtain ⟨t, hsort⟩ := insertionSort_head_of_strict_max _ _ hx hmax
  obtain ⟨m, hm⟩ : ∃ m, min (1 * 10) s2.index.ntotal = m + 1 := by
    rw [hnt]
    exact ⟨min (1 * 10) (vecs0.length + 1) - 1, by omega⟩
  have hsearch : s2.index.search (normalize_L2 e) (min (1 * 10) s2.index.ntotal)
      = ((1 : ℝ), vecs0.length) :: t.take m := by
    unfold FaissIndex.search
    rw [hsort, hm, List.take_succ_cons]
  unfold EmbeddingIndex.search_similar
  rw [if_neg (by omega : ¬ s2.index.ntotal = 0)]
  show filterLoop s2 1 none none
      (s2.index.search (normalize_L2 e) (min (1 * 10) s2.index.ntotal)) [] = [(i, 1)]
  rw [hsearch]
  simp [filterLoop, show vecs0.length < s2.item_ids.length from by omega, hi,
    skipByOwner_none_left, excludeHit_none]
  rw [← List.getD_eq_getElem s2.item_ids 0 (by omega)]
  exact hi

/-- C5 amended: for a valid-dimension embedding with positive squared norm
(the all-zero embedding is excluded) added to a store of unit-or-zero
normalized vectors none of which equals the normalized new embedding
(duplicates are excluded), add succeeds and a k = 1 search for the same
embedding returns exactly the new id with score exactly 1 in exact real
arithmetic (score within floating tolerance of 1.0 in the float code). -/
theorem c5_self_similarity (s : EmbeddingIndex) (item_id : Int) (e : List ℝ)
    (u : Option Int)
    (hd : s.index.d = EMBEDDING_DIM)
    (hlen : e.length = EMBEDDING_DIM)
    (hpos : 0 < dot e e)
    (hvecs : ∀ w ∈ s.index.vecs, w.length = EMBEDDING_DIM ∧ dot w w ≤ 1)
    (hInv : ReadyInv s)
    (hfresh : normalize_L2 e ∉ s.index.vecs) :
    (s.add_item item_id e u).2 = none ∧
    (s.add_item item_id e u).1.search_similar e 1 none none = [(item_id, 1)] := by
  have hlen2 : s.item_ids.length = s.index.vecs.length := hInv
  rw [add_item_ok s item_id e u (by rw [hd]; exact hlen)]
  refine ⟨rfl, ?_⟩
  apply search_top_hit _ e item_id s.index.vecs
  · rfl
  · show (s.item_ids ++ [item_id]).getD s.index.vecs.length 0 = item_id
    rw [← hlen2, List.getD_append_right s.item_ids [item_id] 0 s.item_ids.length
      (le_refl _)]
    simp
  · show (s.item_ids ++ [item_id]).length = s.index.vecs.length + 1
    rw [List.length_append, hlen2]
    rfl
  · exact hpos
  · intro w hw
    have hne : w ≠ normalize_L2 e := fun hEq => hfresh (hEq ▸ hw)
    have hwp := hvecs w hw
    exact dot_lt_one_of_ne (normalize_L2 e) w
      (by rw [hwp.1, length_normalize_L2, hlen]) (dot_normalize_self e hpos)
      hwp.2 hne

/-- A unit basis-like 512-dimensional embedding. -/
def e0 : List ℝ := 1 :: List.replicate 511 0

theorem e0_length : e0.length = EMBEDDING_DIM := by
  rw [e0, List.length_cons, List.length_replicate]
  rfl

theorem dot_e0 : dot e0 e0 = 1 := by
  rw [e0, dot_cons_cons, dot_replicate_zero_left]
  norm_num

/-- Witness for the amended C5 at a concrete nonzero embedding on a fresh
index. -/
theorem c5_witness :
    (emptyState.add_item 42 e0 none).2 = none ∧
    (emptyState.add_item 42 e0 none).1.search_similar e0 1 none none = [(42, 1)] :=
  c5_self_similarity emptyState 42 e0 none rfl e0_length
    (by rw [dot_e0]; norm_num)
    (fun w hw => absurd hw (List.not_mem_nil w))
    rfl
    (List.not_mem_nil _)

/-! ### Claim C7 -/

theorem load_or_create_some (ix : FaissIndex) (db : List Record) :
    load_or_create (some ix) db =
      EmbeddingIndex.load_metadata
        { index := ix, item_ids := [], user_map := fun _ => none, disk := some ix }
        db := rfl

theorem load_metadata_eq (s : EmbeddingIndex) (db : List Record) :
    s.load_metadata db =
      (if ((dbQuery db none).map (·.id)).length = s.index.ntotal then
        ({ s with item_ids := (dbQuery db none).map (·.id),
                  user_map := buildUserMap (dbQuery db none) }, none)
      else
        EmbeddingIndex.rebuild_all
          { s with item_ids := (dbQuery db none).map (·.id),
                   user_map := buildUserMap (dbQuery db none) }
          (dbQuery db none)) := rfl

theorem dbQuery_none_length (db : List Record) :
    (dbQuery db none).length = catalogCount db := by
  rw [length_dbQuery, catalogCount]
  congr 1
  apply List.filter_congr
  intro r _
  simp

/-- C7 amended: when a snapshot file exists, load_or_create loads it,
compares the loaded vector count against the catalog's embedding-bearing
record count, rebuilds exactly when they disagree (the loaded index is
kept untouched when they agree), and in all cases finishes with size equal
to the catalog's embedding-bearing record count; the well-formedness
hypothesis makes the rebuild's faiss adds succeed. -/
theorem c7_load_reconciles (ix : FaissIndex) (db : List Record)
    (hwf : ∀ r ∈ db, ∀ e, r.embedding_json = some e → e.length = EMBEDDING_DIM) :
    (load_or_create (some ix) db).2 = none ∧
    (load_or_create (some ix) db).1.index.ntotal = catalogCount db ∧
    ((dbQuery db none).length = ix.ntotal →
      (load_or_create (some ix) db).1.index = ix) := by
  have hitems_wf : ∀ r ∈ dbQuery db none, ∀ e,
      r.embedding_json = some e → e.length = EMBEDDING_DIM :=
    fun r hr e he => hwf r (dbQuery_sub db none r hr) e he
  have hfl : (dbQuery db none).filter (fun r => r.embedding_json.isSome)
      = dbQuery db none :=
    List.filter_eq_self.mpr (fun r hr => dbQuery_isSome db none r hr)
  rw [load_or_create_some, load_metadata_eq]
  by_cases hag : ((dbQuery db none).map (·.id)).length = ix.ntotal
  · rw [if_pos hag]
    refine ⟨rfl, ?_, fun _ => rfl⟩
    show ix.ntotal = catalogCount db
    rw [← hag, List.length_map, dbQuery_none_length]
  · rw [if_neg hag]
    obtain ⟨s1, h1, h2, h3, h4⟩ := rebuild_all_wf _ (dbQuery db none) hitems_wf
    rw [h1]
    refine ⟨rfl, ?_, ?_⟩
    · show s1.index.ntotal = catalogCount db
      rw [h3, hfl, dbQuery_none_length]
    · intro hagree
      exact absurd (by rw [List.length_map]; exact hagree) hag

/-- A catalog record with a well-formed embedding, used in several
instantiations. -/
def rec1 : Record := ⟨1, some z512, none⟩

/-- C7 counterexample: when no snapshot file exists, load_or_create
creates an empty index and never consults the catalog, so with one
embedding-bearing record in the catalog it finishes with size 0 while the
catalog count is 1, refuting the claim that load_or_create always ends
with size equal to the catalog count. -/
theorem c7_counterexample :
    (load_or_create none [rec1]).2 = none ∧
    (load_or_create none [rec1]).1.index.ntotal = 0 ∧
    catalogCount [rec1] = 1 := by
  refine ⟨rfl, rfl, ?_⟩
  simp [catalogCount, rec1]

/-- Witness for the amended C7: a snapshot with 0 vectors against a
catalog with 1 embedding-bearing record rebuilds to size 1. -/
theorem c7_witness :
    (load_or_create (some (IndexFlatIP EMBEDDING_DIM)) [rec1]).2 = none ∧
    (load_or_create (some (IndexFlatIP EMBEDDING_DIM)) [rec1]).1.index.ntotal
      = catalogCount [rec1] ∧
    ((dbQuery [rec1] none).length = (IndexFlatIP EMBEDDING_DIM).ntotal →
      (load_or_create (some (IndexFlatIP EMBEDDING_DIM)) [rec1]).1.index
        = IndexFlatIP EMBEDDING_DIM) :=
  c7_load_reconciles (IndexFlatIP EMBEDDING_DIM) [rec1] (by
    intro r hr e he
    rw [List.mem_singleton] at hr
    subst hr
    have h2 : some z512 = some e := he
    rw [← Option.some_inj.mp h2]
    exact z512_length)

/-! ### Claim C8 -/

theorem ReadyInv_rebuild_all (s : EmbeddingIndex) (items : List Record) :
    ReadyInv (s.rebuild_all items).1 := by
  rw [rebuild_all_eq]
  have h := foldl_rebuildStep_inv items
    ({ s with index := IndexFlatIP EMBEDDING_DIM, item_ids := [],
              user_map := fun _ => none }, none) rfl
  rcases hf : List.foldl rebuildStep
      ({ s with index := IndexFlatIP EMBEDDING_DIM, item_ids := [],
                user_map := fun _ => none }, none) items
    with ⟨s1, er⟩
  rw [hf] at h
  cases er with
  | none => exact h
  | some e => exact h

theorem ReadyInv_rebuild_without (s : EmbeddingIndex) (db : List Record)
    (x : Int) : ReadyInv (s.rebuild_without db x).1 :=
  ReadyInv_rebuild_all s (dbQuery db (some x))

theorem ReadyInv_load_metadata (s : EmbeddingIndex) (db : List Record) :
    ReadyInv (s.load_metadata db).1 := by
  rw [load_metadata_eq]
  by_cases hag : ((dbQuery db none).map (·.id)).length = s.index.ntotal
  · rw [if_pos hag]
    exact hag
  · rw [if_neg hag]
    exact ReadyInv_rebuild_all _ _

theorem ReadyInv_load_or_create (disk : Option FaissIndex) (db : List Record) :
    ReadyInv (load_or_create disk db).1 := by
  cases disk with
  | none => rfl
  | some ix => exact ReadyInv_load_metadata _ db

theorem ReadyInv_add_item (s : EmbeddingIndex) (i : Int) (e : List ℝ)
    (u : Option Int) (h : ReadyInv s) : ReadyInv (s.add_item i e u).1 := by
  by_cases hlen : e.length = s.index.d
  · rw [add_item_ok s i e u hlen]
    simp only [ReadyInv, FaissIndex.ntotal] at h ⊢
    simp only [EmbeddingIndex.save, List.length_append, List.length_singleton]
    omega
  · rw [add_item_err s i e u hlen]
    exact h

theorem ReadyInv_remove_item (s : EmbeddingIndex) (db : List Record) (i : Int)
    (h : ReadyInv s) : ReadyInv (s.remove_item db i).1 := by
  unfold EmbeddingIndex.remove_item
  by_cases hmem : i ∈ s.item_ids
  · rw [if_pos hmem]
    have h1 := ReadyInv_rebuild_without s db i
    rcases hrw : s.rebuild_without db i with ⟨s1, er⟩
    rw [hrw] at h1
    cases er with
    | none => exact h1
    | some e => exact h1
  · rw [if_neg hmem]
    exact h

theorem ReadyInv_applyOp (s : EmbeddingIndex) (op : Op) (h : ReadyInv s) :
    ReadyInv (applyOp s op).1 := by
  cases op with
  | add i e u => exact ReadyInv_add_item s i e u h
  | remove db i => exact ReadyInv_remove_item s db i h
  | search e k ex uid => exact h
  | load db => exact ReadyInv_load_or_create s.disk db

theorem ReadyInv_runOps (s : EmbeddingIndex) (ops : List Op) (h : ReadyInv s) :
    ReadyInv (runOps s ops) := by
  induction ops generalizing s with
  | nil => exact h
  | cons op ops ih => exact ih _ (ReadyInv_applyOp s op h)

/-- C8: in every state reachable from a freshly constructed index (any
snapshot, any catalog) by any sequence of add, remove, search and
load_or_create operations against arbitrary catalog contents, the id list
and the vector store have the same length; the invariant also survives
operations that raise. -/
theorem c8_length_invariant (disk : Option FaissIndex) (db : List Record)
    (ops : List Op) :
    ReadyInv (runOps (load_or_create disk db).1 ops) :=
  ReadyInv_runOps _ ops (ReadyInv_load_or_create disk db)

/-! ### Claim C6 -/

theorem filter_exclude_count (db : List Record) (i : Int)
    (hnodup : (db.map (·.id)).Nodup)
    (hex : ∃ r ∈ db, r.embedding_json.isSome ∧ r.id = i) :
    (db.filter (fun r => r.embedding_json.isSome && (r.id != i))).length + 1
      = (db.filter (fun r => r.embedding_json.isSome)).length := by
  induction db with
  | nil =>
    obtain ⟨r, hr, _⟩ := hex
    exact absurd hr (List.not_mem_nil r)
  | cons h t ih =>
    rw [List.map_cons, List.nodup_cons] at hnodup
    obtain ⟨hhn, hnd⟩ := hnodup
    by_cases hid : h.id = i
    · have ht_ne : ∀ r ∈ t, r.id ≠ i := by
        intro r hr hcon
        exact hhn (by rw [hid, ← hcon]; exact List.mem_map_of_mem _ hr)
      have hsome : h.embedding_json.isSome := by
        obtain ⟨r, hr, hrs, hri⟩ := hex
        rcases List.mem_cons.mp hr with hrh | hrt
        · rwa [← hrh]
        · exact absurd hri (ht_ne r hrt)
      have hfeq : t.filter (fun r => r.embedding_json.isSome && (r.id != i))
          = t.filter (fun r => r.embedding_json.isSome) := by
        apply List.filter_congr
        intro r hr
        rw [show (r.id != i) = true from by simpa using ht_ne r hr, Bool.and_true]
      rw [List.filter_cons, List.filter_cons]
      simp only [hid, bne_self_eq_false, Bool.and_false, Bool.false_eq_true,
        if_false, hsome, if_true, List.length_cons, hfeq]
    · have hex2 : ∃ r ∈ t, r.embedding_json.isSome ∧ r.id = i := by
        obtain ⟨r, hr, hrs, hri⟩ := hex
        rcases List.mem_cons.mp hr with hrh | hrt
        · exact absurd (by rw [← hrh]; exact hri) hid
        · exact ⟨r, hrt, hrs, hri⟩
      have hrec := ih hnd hex2
      have hb : (h.id != i) = true := by simpa using hid
      rw [List.filter_cons, List.filter_cons, hb, Bool.and_true]
      by_cases hs : h.embedding_json.isSome = true
      · simp only [hs, if_true, List.length_cons]
        omega
      · simp only [hs, Bool.false_eq_true, if_false]
        exact hrec

/-- C6: under the documented invariants (the id list is, as a multiset,
exactly the ids of the catalog's embedding-bearing records; catalog ids
are unique; catalog embeddings are well-formed; the id list matches the
store size), remove_item always succeeds; when the id is present the size
drops by exactly one, when absent the index is untouched; and afterwards
no search call, with any query, k and filters, ever returns the removed
id. -/
theorem c6_remove_item (s : EmbeddingIndex) (db : List Record) (item_id : Int)
    (hperm : s.item_ids.Perm
      ((db.filter fun r => r.embedding_json.isSome).map (·.id)))
    (hnodup : (db.map (·.id)).Nodup)
    (hwf : ∀ r ∈ db, ∀ e, r.embedding_json = some e → e.length = EMBEDDING_DIM)
    (hInv : ReadyInv s) :
    (s.remove_item db item_id).2 = none ∧
    (item_id ∈ s.item_ids →
      (s.remove_item db item_id).1.index.ntotal + 1 = s.index.ntotal) ∧
    (item_id ∉ s.item_ids →
      (s.remove_item db item_id).1.index.ntotal = s.index.ntotal) ∧
    (∀ q k ex uid,
      item_id ∉ ((s.remove_item db item_id).1.search_similar q k ex uid).map
        Prod.fst) := by
  unfold EmbeddingIndex.remove_item
  by_cases hmem : item_id ∈ s.item_ids
  · rw [if_pos hmem]
    have hitems_wf : ∀ r ∈ dbQuery db (some item_id), ∀ e,
        r.embedding_json = some e → e.length = EMBEDDING_DIM :=
      fun r hr e he => hwf r (dbQuery_sub db (some item_id) r hr) e he
    obtain ⟨s1, h1, h2, h3, h4⟩ :=
      rebuild_all_wf s (dbQuery db (some item_id)) hitems_wf
    have h1w : s.rebuild_without db item_id = (s1.save, none) := h1
    rw [h1w]
    have hfl : (dbQuery db (some item_id)).filter
        (fun r => r.embedding_json.isSome) = dbQuery db (some item_id) :=
      List.filter_eq_self.mpr
        (fun r hr => dbQuery_isSome db (some item_id) r hr)
    have hids1 : s1.item_ids = (dbQuery db (some item_id)).map (·.id) := by
      rw [h2, hfl]
    have hnoid : item_id ∉ s1.item_ids := by
      rw [hids1]
      intro hin
      obtain ⟨r, hr, hrid⟩ := List.mem_map.mp hin
      exact mem_dbQuery_exclude db item_id r hr hrid
    refine ⟨rfl, fun _ => ?_, fun hcon => absurd hmem hcon, ?_⟩
    · show s1.index.ntotal + 1 = s.index.ntotal
      have hex : ∃ r ∈ db, r.embedding_json.isSome ∧ r.id = item_id := by
        have hin : item_id
            ∈ (db.filter fun r => r.embedding_json.isSome).map (·.id) :=
          hperm.mem_iff.mp hmem
        obtain ⟨r, hr, hrid⟩ := List.mem_map.mp hin
        exact ⟨r, List.mem_of_mem_filter hr,
          by simpa using List.of_mem_filter hr, hrid⟩
      have hold : s.index.ntotal
          = (db.filter (fun r => r.embedding_json.isSome)).length := by
        rw [← hInv, hperm.length_eq, List.length_map]
      rw [h3, hfl, length_dbQuery, hold]
      exact filter_exclude_count db item_id hnodup hex
    · intro q k ex uid hin
      obtain ⟨p, hp, hfst⟩ := List.mem_map.mp hin
      have hsub := search_similar_mem _ q k ex uid p hp
      rw [hfst] at hsub
      exact hnoid hsub
  · rw [if_neg hmem]
    refine ⟨rfl, fun hcon => absurd hcon hmem, fun _ => rfl, ?_⟩
    intro q k ex uid hin
    obtain ⟨p, hp, hfst⟩ := List.mem_map.mp hin
    have hsub := search_similar_mem _ q k ex uid p hp
    rw [hfst] at hsub
    exact hmem hsub

/-- A catalog record owned by user 1, with a well-formed embedding. -/
def rec2 : Record := ⟨2, some z512, some 1⟩

/-- A consistent two-item state matching the catalog [rec1, rec2]. -/
def stW : EmbeddingIndex :=
  { index := ⟨EMBEDDING_DIM, [z512, z512]⟩, item_ids := [1, 2],
    user_map := fun x => if x = 2 then some 1 else none, disk := none }

/-- Witness for C6 at a concrete consistent state and catalog. -/
theorem c6_witness :
    (stW.remove_item [rec1, rec2] 2).2 = none ∧
    ((2 : Int) ∈ stW.item_ids →
      (stW.remove_item [rec1, rec2] 2).1.index.ntotal + 1 = stW.index.ntotal) ∧
    ((2 : Int) ∉ stW.item_ids →
      (stW.remove_item [rec1, rec2] 2).1.index.ntotal = stW.index.ntotal) ∧
    (∀ q k ex uid, (2 : Int) ∉
      ((stW.remove_item [rec1, rec2] 2).1.search_similar q k ex uid).map
        Prod.fst) :=
  c6_remove_item stW [rec1, rec2] 2
    (by
      have h : (([rec1, rec2].filter fun r => r.embedding_json.isSome).map
          (fun r => r.id)) = [1, 2] := by
        simp [rec1, rec2]
      show List.Perm [1, 2] (([rec1, rec2].filter
        fun r => r.embedding_json.isSome).map (·.id))
      rw [h])
    (by simp [rec1, rec2])
    (by
      intro r hr e he
      rcases List.mem_cons.mp hr with h | h
      · subst h
        rw [← Option.some_inj.mp (he : some z512 = some e)]
        exact z512_length
      · rw [List.mem_singleton] at h
        subst h
        rw [← Option.some_inj.mp (he : some z512 = some e)]
        exact z512_length)
    rfl

/-! ### Claim C1 -/

/-- A catalog record whose stored embedding has the wrong dimension (its
decode and re-add raises inside the rebuild loop). -/
def badRec : Record := ⟨2, some [1, 2, 3], none⟩

/-- A catalog record for the item about to be removed. -/
def rec5 : Record := ⟨5, some z512, some 3⟩

/-- The catalog at the time of the failing removal. -/
def dbC1 : List Record := [rec1, badRec, rec5]

/-- The manager's prior state before the failing removal: one vector,
item 5, owned by user 3, with a matching persisted snapshot. -/
def sC1 : EmbeddingIndex :=
  { index := ⟨EMBEDDING_DIM, [z512]⟩, item_ids := [5],
    user_map := fun x => if x = 5 then some 3 else none,
    disk := some ⟨EMBEDDING_DIM, [z512]⟩ }

theorem dbQueryC1 : dbQuery dbC1 (some 5) = [rec1, badRec] := by
  simp [dbQuery, dbC1, rec1, badRec, rec5, List.insertionSort, List.orderedInsert]

/-- C1: evaluating the code at the failing input.  remove_item(5) on the
prior state sC1 triggers a rebuild that processes record 1, then raises a
dimension error on the corrupt record 2; the error propagates, but the
manager is left holding the partially rebuilt state (id list [1], reset
ownership) instead of the prior state (id list [5]): readers observe a
partially rebuilt store, contradicting the claim. -/
theorem c1_rebuild_failure_partial_state :
    (sC1.remove_item dbC1 5).2 = some Err.dimensionMismatch ∧
    (sC1.remove_item dbC1 5).1.item_ids = [1] ∧
    (sC1.remove_item dbC1 5).1.user_map 5 = none ∧
    sC1.item_ids = [5] := by
  have hmem : (5 : Int) ∈ sC1.item_ids := by decide
  have hrw : sC1.rebuild_without dbC1 5 =
      ({ sC1 with
          index := { d := EMBEDDING_DIM, vecs := [normalize_L2 z512] },
          item_ids := [1],
          user_map := fun _ => none }, some Err.dimensionMismatch) := by
    show sC1.rebuild_all (dbQuery dbC1 (some 5)) = _
    rw [dbQueryC1, rebuild_all_eq, List.foldl_cons,
      rebuildStep_some _ rec1 z512 rfl z512_length, List.foldl_cons,
      rebuildStep_bad _ badRec [1, 2, 3] rfl (by decide), List.foldl_nil]
    rfl
  unfold EmbeddingIndex.remove_item
  rw [if_pos hmem, hrw]
  exact ⟨rfl, rfl, rfl, rfl⟩
